import Mathlib

-- Verification of the pydantic-ai workflow-graph runtime:
-- a shallow embedding of src/pydantic_graph/pydantic_graph/graph.py,
-- src/pydantic_graph/pydantic_graph/mermaid.py,
-- src/pydantic_ai_graph/pydantic_ai_graph/state.py,
-- src/pydantic_ai_graph/pydantic_ai_graph/nodes.py and
-- src/pydantic_ai/retrievers.py, with theorems about the spec's claims.

set_option maxHeartbeats 1000000

namespace PG

-- ===== Heap model for mutable Python state objects =====
-- Python state objects are mutable and aliased; we model them as references
-- into an explicit store so that `copy.deepcopy` (AbstractState.deep_copy)
-- is observably different from sharing the live object.

abbrev Ref := Nat

abbrev Store (σ : Type) := List σ

def Store.read? {σ : Type} (s : Store σ) (r : Ref) : Option σ := s[r]?

def Store.write {σ : Type} (s : Store σ) (r : Ref) (v : σ) : Store σ := s.set r v

-- AbstractState.deep_copy (state.py lines 28-30): `copy.deepcopy(self)`,
-- modelled as allocating a fresh cell holding the current value.
def deep_copy {σ : Type} [Inhabited σ] (s : Store σ) (r : Ref) : Store σ × Ref :=
  (s ++ [s.getD r default], s.length)

-- _deep_copy_state (state.py lines 93-97): None is returned unchanged,
-- otherwise state.deep_copy() is called.
def _deep_copy_state {σ : Type} [Inhabited σ] (s : Store σ) :
    Option Ref → Store σ × Option Ref
  | none => (s, none)
  | some r =>
    let p := deep_copy s r
    (p.1, some p.2)

-- ===== Node values and computations (nodes.py) =====
-- A BaseNode instance has a class-level id and a `run` method taking a
-- GraphContext wrapping the live state; the computation may mutate the
-- state (store), return another node instance, return End(data), return
-- a value of the wrong shape, or raise an exception.

mutual

inductive NodeInstance (σ ρ : Type) : Type where
  | mk (id : String) (run : Option Ref → Store σ → Store σ × CompResult σ ρ)

inductive CompResult (σ ρ : Type) : Type where
  | returns : NodeReturn σ ρ → CompResult σ ρ
  | raises : String → CompResult σ ρ

inductive NodeReturn (σ ρ : Type) : Type where
  | node : NodeInstance σ ρ → NodeReturn σ ρ
  | end_ : ρ → NodeReturn σ ρ
  | other : String → NodeReturn σ ρ

end

def NodeInstance.id {σ ρ : Type} : NodeInstance σ ρ → String
  | .mk i _ => i

def NodeInstance.runFn {σ ρ : Type} :
    NodeInstance σ ρ → (Option Ref → Store σ → Store σ × CompResult σ ρ)
  | .mk _ f => f

-- ===== History records (state.py) =====

-- NextNodeEvent (state.py lines 38-54): state snapshot, node value,
-- start timestamp, duration (filled in later).
structure NextNodeEvent (σ ρ : Type) where
  state : Option Ref
  node : NodeInstance σ ρ
  start_ts : Nat
  duration : Option Nat

-- InterruptEvent (state.py lines 57-72).  The RunInterrupt payload type is
-- not under src/; modelled from the spec as an opaque interrupt payload.
structure InterruptEvent (σ : Type) where
  state : Option Ref
  result : String
  ts : Nat

-- EndEvent (state.py lines 75-90): `result` stands for the End object,
-- carrying the run's final value.
structure EndEvent (σ ρ : Type) where
  state : Option Ref
  result : ρ
  ts : Nat

-- Dataclass construction runs __post_init__, which replaces the live state
-- reference with a deep copy (state.py lines 49-51, 67-69, 85-87).
def NextNodeEvent.create {σ ρ : Type} [Inhabited σ] (s : Store σ) (state : Option Ref)
    (node : NodeInstance σ ρ) (now : Nat) : Store σ × NextNodeEvent σ ρ :=
  let p := _deep_copy_state s state
  (p.1, ⟨p.2, node, now, none⟩)

def InterruptEvent.create {σ : Type} [Inhabited σ] (s : Store σ) (state : Option Ref)
    (result : String) (now : Nat) : Store σ × InterruptEvent σ :=
  let p := _deep_copy_state s state
  (p.1, ⟨p.2, result, now⟩)

def EndEvent.create {σ ρ : Type} [Inhabited σ] (s : Store σ) (state : Option Ref)
    (result : ρ) (now : Nat) : Store σ × EndEvent σ ρ :=
  let p := _deep_copy_state s state
  (p.1, ⟨p.2, result, now⟩)

-- HistoryStep (state.py line 100): tagged union of the three records.
inductive HistoryStep (σ ρ : Type) : Type where
  | step : NextNodeEvent σ ρ → HistoryStep σ ρ
  | interrupt : InterruptEvent σ → HistoryStep σ ρ
  | end_ : EndEvent σ ρ → HistoryStep σ ρ

def HistoryStep.kind {σ ρ : Type} : HistoryStep σ ρ → String
  | .step _ => "step"
  | .interrupt _ => "interrupt"
  | .end_ _ => "end"

-- ===== Node types and outcome declarations =====

-- An entry of a node class's declared return contract (the union members of
-- the `run` annotation, nodes.py lines 81-90): the abstract BaseNode
-- supertype (wildcard), a concrete node class (with an optional edge label,
-- modelled from the spec's "successor identity plus optional label"), or End.
inductive ReturnAnn : Type where
  | baseNode : ReturnAnn
  | nodeId : String → Option String → ReturnAnn
  | endAnn : Option String → ReturnAnn

-- Modelled from the spec: the Edge annotation of the newer graph package is
-- not under src/; per the spec an edge carries only an optional label.
structure Edge where
  label : Option String

-- A node class: its Python class name, the optional explicit node_id
-- override (nodes.py lines 61, 70-73), its declared return contract and
-- docstring note.
structure NodeType where
  name : String
  node_id : Option String
  returns : List ReturnAnn
  note : Option String

def NodeType.get_id (nt : NodeType) : String := nt.node_id.getD nt.name

-- NodeDef (nodes.py lines 101-114, extended with the edge/note fields the
-- newer graph.py and mermaid.py read: next_node_edges, returns_base_node,
-- end_edge, note).
structure NodeDef where
  node : NodeType
  node_id : String
  next_node_edges : List (String × Edge)
  returns_base_node : Bool
  end_edge : Option Edge
  note : Option String

-- Python dict assignment: replace the value if the key exists, else append.
def upsert (l : List (String × Edge)) (k : String) (e : Edge) : List (String × Edge) :=
  if l.any (fun p => p.1 == k) then
    l.map (fun p => if p.1 == k then (p.1, e) else p)
  else l ++ [(k, e)]

-- The classification loop of get_node_def (nodes.py lines 78-90): walk the
-- declared return union, collecting explicit successor edges, the wildcard
-- flag (the abstract BaseNode supertype itself) and the End case.
def deriveLoop (edges : List (String × Edge)) (rbn : Bool) (ee : Option Edge) :
    List ReturnAnn → List (String × Edge) × Bool × Option Edge
  | [] => (edges, rbn, ee)
  | .baseNode :: rest => deriveLoop edges true ee rest
  | .nodeId nid lbl :: rest => deriveLoop (upsert edges nid ⟨lbl⟩) rbn ee rest
  | .endAnn lbl :: rest => deriveLoop edges rbn (some ⟨lbl⟩) rest

def NodeType.get_node_def (nt : NodeType) : NodeDef :=
  let t := deriveLoop [] false none nt.returns
  ⟨nt, nt.get_id, t.1, t.2.1, t.2.2, nt.note⟩

-- ===== Graph construction (graph.py lines 34-76) =====

structure Graph where
  name : Option String
  node_defs : List (String × NodeDef)

-- The GraphSetupError message of _register_node (graph.py lines 53-55):
-- f-string `Node ID `...` is not unique — found on ... and ...`, naming the
-- already-registered node class and the newly registered one.
def dupMsg (nid a b : String) : String :=
  "Node ID `" ++ nid ++ "` is not unique — found on " ++ a ++ " and " ++ b

-- Graph._register_node (graph.py lines 50-57).
def _register_node (defs : List (String × NodeDef)) (nt : NodeType) :
    Except String (List (String × NodeDef)) :=
  let nid := nt.get_id
  match defs.find? (fun p => p.1 == nid) with
  | some existing => .error (dupMsg nid existing.2.node.name nt.name)
  | none => .ok (defs ++ [(nid, nt.get_node_def)])

-- The registration loop of Graph.__init__ (graph.py lines 44-46).
def registerAll (defs : List (String × NodeDef)) :
    List NodeType → Except String (List (String × NodeDef))
  | [] => .ok defs
  | nt :: rest =>
    match _register_node defs nt with
    | .error e => .error e
    | .ok defs' => registerAll defs' rest

def ids (defs : List (String × NodeDef)) : List String := defs.map (fun p => p.1)

-- bad_edges.setdefault(edge, []).append(ref) (graph.py line 66).
def addBadEdge (acc : List (String × List String)) (edge ref : String) :
    List (String × List String) :=
  if acc.any (fun p => p.1 == edge) then
    acc.map (fun p => if p.1 == edge then (p.1, p.2 ++ [ref]) else p)
  else acc ++ [(edge, [ref])]

-- Inner loop of _validate_edges over one node's declared successor edges.
def collectNode (known : List String) (nid : String)
    (acc : List (String × List String)) :
    List (String × Edge) → List (String × List String)
  | [] => acc
  | (e, _) :: rest =>
    if known.contains e then collectNode known nid acc rest
    else collectNode known nid (addBadEdge acc e ("`" ++ nid ++ "`")) rest

-- Outer loop of _validate_edges over all registered node defs.
def collectAll (known : List String) (acc : List (String × List String)) :
    List (String × NodeDef) → List (String × List String)
  | [] => acc
  | p :: rest => collectAll known (collectNode known p.1 acc p.2.next_node_edges) rest

def collectBadEdges (defs : List (String × NodeDef)) : List (String × List String) :=
  collectAll (ids defs) [] defs

-- Modelled from the spec: `_utils.comma_and`, whose source file is not under
-- src/; it joins the referencing-node names into one phrase naming every one.
def comma_and : List String → String
  | [] => ""
  | [x] => x
  | [x, y] => x ++ " and " ++ y
  | x :: xs => x ++ ", " ++ comma_and xs

-- f'`{k}` is referenced by {comma_and(v)}' (graph.py line 69).
def badEdgeEntry (p : String × List String) : String :=
  "`" ++ p.1 ++ "` is referenced by " ++ comma_and p.2

def joinLines : List String → String
  | [] => ""
  | [x] => x
  | x :: xs => x ++ "\n" ++ joinLines xs

-- Graph._validate_edges (graph.py lines 59-76): collect every dangling
-- declared successor reference, then raise one grouped GraphSetupError,
-- with singular/plural message shaping.
def _validate_edges (defs : List (String × NodeDef)) : Except String Unit :=
  match collectBadEdges defs with
  | [] => .ok ()
  | [p] => .error (badEdgeEntry p ++ " but not included in the graph.")
  | bad =>
    let body := joinLines (bad.map (fun p => " " ++ badEdgeEntry p))
    .error ("Nodes are referenced in the graph but not included in the graph:\n" ++ body)

-- Graph.__init__ (graph.py lines 34-48): register every node type, then
-- validate the edges.
def Graph.build (name : Option String) (nodes : List NodeType) : Except String Graph :=
  match registerAll [] nodes with
  | .error e => .error e
  | .ok defs =>
    match _validate_edges defs with
    | .error e => .error e
    | .ok _ => .ok ⟨name, defs⟩

-- ===== Execution engine (graph.py lines 78-121) =====

inductive NextError : Type where
  | graphRuntimeError : String → NextError
  | exn : String → NextError

-- The GraphRuntimeError message of Graph.next (graph.py line 83).
def unregisteredMsg (nid : String) : String :=
  "Node `" ++ nid ++ "` is not in the graph."

-- The GraphRuntimeError message of Graph.run (graph.py lines 119-121).
def invalidReturnMsg (ty : String) : String :=
  "Invalid node return type: `" ++ ty ++ "`. Expected `BaseNode` or `End`."

-- Graph.next (graph.py lines 78-93): reject an unregistered current node;
-- append a NodeEvent (step record with deep-copied state snapshot and
-- start timestamp) to history; run the node's computation on the live
-- state; on normal return write the measured duration into the appended
-- record and return the computation's result unchanged; an exception from
-- the computation propagates, leaving the appended record in history with
-- its duration unset.  `now` and `dur` stand for the wall-clock readings.
def Graph.next {σ ρ : Type} [Inhabited σ] (g : Graph) (store : Store σ)
    (state : Option Ref) (node : NodeInstance σ ρ)
    (history : List (HistoryStep σ ρ)) (now dur : Nat) :
    Store σ × List (HistoryStep σ ρ) × Except NextError (NodeReturn σ ρ) :=
  let nid := node.id
  if (g.node_defs.find? (fun p => p.1 == nid)).isNone then
    (store, history, .error (.graphRuntimeError (unregisteredMsg nid)))
  else
    let p := NextNodeEvent.create store state node now
    match node.runFn state p.1 with
    | (store₂, .raises e) =>
      (store₂, history ++ [HistoryStep.step p.2], .error (.exn e))
    | (store₂, .returns r) =>
      (store₂, history ++ [HistoryStep.step { p.2 with duration := some dur }], .ok r)

inductive RunError : Type where
  | graphRuntimeError : String → RunError
  | exn : String → RunError
  | outOfFuel : RunError

-- The `while True` loop of Graph.run (graph.py lines 107-121), embedded
-- with a fuel bound: `outOfFuel` marks that the loop would still be
-- running (a graph without a reachable End runs indefinitely).  `clock`
-- supplies the timestamps.
def Graph.runAux {σ ρ : Type} [Inhabited σ] (g : Graph) (fuel : Nat) (store : Store σ)
    (state : Option Ref) (node : NodeInstance σ ρ)
    (history : List (HistoryStep σ ρ)) (clock : Nat) :
    Store σ × Except RunError (ρ × List (HistoryStep σ ρ)) :=
  match fuel with
  | 0 => (store, .error .outOfFuel)
  | f + 1 =>
    match g.next store state node history clock 1 with
    | (store', history', res) =>
      match res with
      | .error (.graphRuntimeError m) => (store', .error (.graphRuntimeError m))
      | .error (.exn e) => (store', .error (.exn e))
      | .ok (.end_ v) =>
        let p := EndEvent.create store' state v (clock + 2)
        (p.1, .ok (v, history' ++ [HistoryStep.end_ p.2]))
      | .ok (.node n) => g.runAux f store' state n history' (clock + 2)
      | .ok (.other ty) =>
        (store', .error (.graphRuntimeError (invalidReturnMsg ty)))

-- Graph.run (graph.py lines 95-121): start from an empty history and loop.
def Graph.run {σ ρ : Type} [Inhabited σ] (g : Graph) (fuel : Nat) (store : Store σ)
    (state : Option Ref) (start_node : NodeInstance σ ρ) (clock : Nat) :
    Store σ × Except RunError (ρ × List (HistoryStep σ ρ)) :=
  g.runAux fuel store state start_node [] clock

-- ===== Diagram renderer (mermaid.py lines 26-91) =====

def mkEdgeLine (a b : String) : String := s!"  {a} --> {b}"

-- Collapse runs of two or more newlines (re.sub('\n{2,}', '\n', note),
-- mermaid.py line 79).
def collapseNewlines : List Char → List Char
  | [] => []
  | c :: rest =>
    if c = '\n' then '\n' :: collapseNewlines (rest.dropWhile (fun d => d = '\n'))
    else c :: collapseNewlines rest
termination_by l => l.length
decreasing_by
· exact Nat.lt_succ_of_le (List.dropWhile_suffix _).length_le
· exact Nat.lt_succ_self _

def indentLine (l : String) : String := "    " ++ l

-- indent(clean_docs, '    ') (mermaid.py line 80).
def indentNote (note : String) : String :=
  joinLines ((⟨collapseNewlines note.data⟩ : String).splitOn "\n" |>.map indentLine)

-- The per-node body of the generate_code loop (mermaid.py lines 54-81):
-- a start edge when requested, then either an edge to every registered
-- node (wildcard, returns_base_node) or the node's declared edges with
-- optional labels, then the terminal edge, then the docstring note.
def nodeLines (g : Graph) (start_ids : List String) (edge_labels notes : Bool)
    (p : String × NodeDef) : List String :=
  let nid := p.1
  let nd := p.2
  (if start_ids.contains nid then [s!"  [*] --> {nid}"] else []) ++
  (if nd.returns_base_node then
    g.node_defs.map (fun q => mkEdgeLine nid q.1)
  else
    nd.next_node_edges.map (fun q =>
      match edge_labels, q.2.label with
      | true, some lbl => mkEdgeLine nid q.1 ++ ": " ++ lbl
      | _, _ => mkEdgeLine nid q.1)) ++
  (match nd.end_edge with
   | some e =>
     (match edge_labels, e.label with
      | true, some lbl => [s!"  {nid} --> [*]" ++ ": " ++ lbl]
      | _, _ => [s!"  {nid} --> [*]"])
   | none => []) ++
  (match notes, nd.note with
   | true, some doc => [s!"  note right of {nid}", indentNote doc, "  end note"]
   | _, _ => [])

-- The main loop of generate_code over the graph's registered nodes.
-- Modelled from the spec where mermaid.py reads `graph.nodes` (an attribute
-- of the newer Graph class not under src/): the renderer walks the set of
-- registered node identities in registration order, which is exactly the
-- registry `node_defs`.
def mermaidBody (g : Graph) (start_ids : List String) (edge_labels notes : Bool) :
    List (String × NodeDef) → List String
  | [] => []
  | p :: rest =>
    nodeLines g start_ids edge_labels notes p ++ mermaidBody g start_ids edge_labels notes rest

def mermaidLines (g : Graph) (start_ids : List String) (edge_labels notes : Bool) :
    List String :=
  "stateDiagram-v2" :: mermaidBody g start_ids edge_labels notes g.node_defs

-- The highlight block (mermaid.py lines 83-89): unknown highlighted nodes
-- raise a LookupError.
def highlightLines (g : Graph) : List String → Except String (List String)
  | [] => .ok []
  | h :: rest =>
    if (ids g.node_defs).contains h then
      match highlightLines g rest with
      | .error e => .error e
      | .ok ls => .ok (s!"class {h} highlighted" :: ls)
    else .error ("Highlighted node \"" ++ h ++ "\" is not in the graph.")

-- generate_code (mermaid.py lines 26-91): validate the start identities,
-- emit the diagram body, then the optional highlight block.
def generate_code (g : Graph) (start_ids highlighted : List String)
    (highlight_css : String) (edge_labels notes : Bool) : Except String String :=
  match start_ids.find? (fun sid => !(ids g.node_defs).contains sid) with
  | some sid => .error ("Start node \"" ++ sid ++ "\" is not in the graph.")
  | none =>
    let body := mermaidLines g start_ids edge_labels notes
    if highlighted.isEmpty then .ok (joinLines body)
    else
      match highlightLines g highlighted with
      | .error e => .error e
      | .ok hls =>
        .ok (joinLines (body ++ ["", s!"classDef highlighted {highlight_css}"] ++ hls))

-- ===== Tool-invocation collaborator (retrievers.py lines 31-101) =====

-- The retry bookkeeping of Retriever: max_retries and _current_retry.
structure Retriever where
  max_retries : Nat
  current_retry : Nat

-- Retriever.reset (retrievers.py lines 66-68).
def Retriever.reset (r : Retriever) : Retriever := { r with current_retry := 0 }

inductive RunOutcome : Type where
  | validationErrorMsg : RunOutcome
  | response : RunOutcome
  | raised : RunOutcome

-- Retriever.run (retrievers.py lines 70-101): a ValidationError from
-- validate_json increments _current_retry and raises once it exceeds
-- max_retries, otherwise returns a FunctionValidationError message; a
-- successful validation runs the function, resets _current_retry to 0 and
-- returns a FunctionResponse.  `validArgs` is whether validate_json accepts
-- the call's arguments.
def Retriever.run (r : Retriever) (validArgs : Bool) : Retriever × RunOutcome :=
  if !validArgs then
    let c := r.current_retry + 1
    if c > r.max_retries then ({ r with current_retry := c }, .raised)
    else ({ r with current_retry := c }, .validationErrorMsg)
  else
    ({ r with current_retry := 0 }, .response)

-- A sequence of calls to Retriever.run on the same retriever object.
def runCalls (r : Retriever) : List Bool → Retriever × List RunOutcome
  | [] => (r, [])
  | b :: rest =>
    let p := r.run b
    let q := runCalls p.1 rest
    (q.1, p.2 :: q.2)

-- The length of the trailing run of validation failures in a call sequence.
def trailingFalses (l : List Bool) : Nat :=
  (l.reverse.takeWhile (fun b => b == false)).length

-- ===== String-occurrence machinery for error-message claims =====

-- `occursIn needle hay`: the needle appears verbatim inside the haystack.
def occursIn (needle hay : String) : Prop :=
  ∃ p q, hay.data = p ++ needle.data ++ q

lemma data_append (a b : String) : (a ++ b).data = a.data ++ b.data := by
  cases a; cases b; rfl

lemma occursIn_refl (s : String) : occursIn s s := ⟨[], [], by simp⟩

lemma occursIn_trans {a b c : String} (h₁ : occursIn a b) (h₂ : occursIn b c) :
    occursIn a c := by
  obtain ⟨p, q, hb⟩ := h₁
  obtain ⟨u, v, hc⟩ := h₂
  exact ⟨u ++ p, q ++ v, by simp [hc, hb]⟩

lemma occursIn_left {a b : String} (x : String) (h : occursIn a b) :
    occursIn a (x ++ b) := by
  obtain ⟨p, q, hb⟩ := h
  exact ⟨x.data ++ p, q, by simp [data_append, hb]⟩

lemma occursIn_right {a b : String} (x : String) (h : occursIn a b) :
    occursIn a (b ++ x) := by
  obtain ⟨p, q, hb⟩ := h
  exact ⟨p, q ++ x.data, by simp [data_append, hb]⟩

lemma occursIn_comma_and : ∀ (xs : List String) (x : String), x ∈ xs →
    occursIn x (comma_and xs)
  | [y], x, h => by
    rcases List.mem_singleton.mp h with rfl
    exact occursIn_refl x
  | [y, z], x, h => by
    rcases List.mem_cons.mp h with rfl | h
    · exact occursIn_right _ (occursIn_right _ (occursIn_refl x))
    · rcases List.mem_singleton.mp h with rfl
      exact occursIn_left _ (occursIn_refl x)
  | y :: z :: w :: rest, x, h => by
    rcases List.mem_cons.mp h with rfl | h
    · exact occursIn_right _ (occursIn_right _ (occursIn_refl x))
    · exact occursIn_left _ (occursIn_comma_and (z :: w :: rest) x h)

lemma occursIn_joinLines : ∀ (xs : List String) (x : String), x ∈ xs →
    occursIn x (joinLines xs)
  | [y], x, h => by
    rcases List.mem_singleton.mp h with rfl
    exact occursIn_refl x
  | y :: z :: rest, x, h => by
    rcases List.mem_cons.mp h with rfl | h
    · exact occursIn_right _ (occursIn_right _ (occursIn_refl x))
    · exact occursIn_left _ (occursIn_joinLines (z :: rest) x h)

-- ===== Concrete example graphs =====

-- The spec's example graph (spec §8): node type A with identity "A" and
-- declared successor set {"B"}; node type B with identity "B", terminal only.
def exA : NodeType := ⟨"A", none, [.nodeId "B" none], none⟩

def exB : NodeType := ⟨"B", none, [.endAnn none], none⟩

-- B's computation returns End(42).
def exBInst : NodeInstance Unit Nat := .mk "B" (fun _ st => (st, .returns (.end_ 42)))

-- A's computation returns a B-instance.
def exAInst : NodeInstance Unit Nat := .mk "A" (fun _ st => (st, .returns (.node exBInst)))

def exGraph : Graph := ⟨none, [("A", exA.get_node_def), ("B", exB.get_node_def)]⟩

-- The history the run loop actually produces on the spec's example.
def exHist : List (HistoryStep Unit Nat) :=
  [HistoryStep.step ⟨none, exAInst, 0, some 1⟩,
   HistoryStep.step ⟨none, exBInst, 2, some 1⟩,
   HistoryStep.end_ ⟨none, 42, 4⟩]

-- A wildcard node type whose declared outcome set also names the
-- unregistered identity "Z", plus a terminal-only node type "T".
def exW : NodeType := ⟨"W", none, [.baseNode, .nodeId "Z" none], none⟩

def exT : NodeType := ⟨"T", none, [.endAnn none], none⟩

def exWGraph : Graph := ⟨none, [("W", exW.get_node_def), ("T", exT.get_node_def)]⟩

-- An instance whose identity "Q" is not registered in exGraph.
def exQInst : NodeInstance Unit Nat := .mk "Q" (fun _ st => (st, .returns (.end_ 0)))

-- A registered instance ("A") whose computation raises an exception.
def exRaiseInst : NodeInstance Unit Nat := .mk "A" (fun _ st => (st, .raises "boom"))

-- ===== C1 =====

/-- C1, counterexample: on the spec's example graph — A (identity "A",
successor {"B"}), B (identity "B", terminal only), absent state, A's
computation returning a B-instance and B's computation returning End(42) —
`run` does return result 42, but the history it returns has THREE records
(step(A), step(B), end(42)), not the claimed two: the loop appends a step
record for B's computation as well before the end record. -/
theorem c1_counterexample :
    (Graph.run exGraph 5 ([] : Store Unit) none exAInst 0).2 = .ok (42, exHist)
    ∧ exHist.length ≠ 2 := by
  constructor
  · rfl
  · decide

/-- C1, amended claim: for the graph built from node types A (identity "A",
declared successor set {"B"}) and B (identity "B", terminal only), calling
run with no state and an A-instance, where A's computation returns a
B-instance and B's computation returns End(42), returns result 42 and a
history equal to [step(A), step(B), end(42)], i.e. exactly 3 records: a step
record per executed node computation (node A then node B, each with an
absent-state snapshot) followed by the end record carrying 42. -/
theorem c1_run_example :
    Graph.build none [exA, exB] = .ok exGraph
    ∧ (Graph.run exGraph 5 ([] : Store Unit) none exAInst 0).2 = .ok (42, exHist)
    ∧ exHist.map HistoryStep.kind = ["step", "step", "end"]
    ∧ exHist.length = 3
    ∧ exHist = [HistoryStep.step ⟨none, exAInst, 0, some 1⟩,
        HistoryStep.step ⟨none, exBInst, 2, some 1⟩,
        HistoryStep.end_ ⟨none, 42, 4⟩]
    ∧ exAInst.id = "A" ∧ exBInst.id = "B" := by
  refine ⟨rfl, rfl, rfl, rfl, rfl, rfl, rfl⟩

-- ===== C3 =====

-- A node instance over a Nat-valued state store, for concrete snapshots.
def exNatInst : NodeInstance Nat Nat := .mk "S" (fun _ st => (st, .returns (.end_ 0)))

lemma deep_copy_state_isolated {σ : Type} [Inhabited σ] (s : Store σ) (r : Ref)
    (h : r < s.length) :
    ∃ r', (_deep_copy_state s (some r)).2 = some r'
      ∧ (_deep_copy_state s (some r)).1.read? r' = s.read? r
      ∧ ∀ w, ((_deep_copy_state s (some r)).1.write r w).read? r' = s.read? r := by
  refine ⟨s.length, rfl, ?_, ?_⟩
  · show (s ++ [s.getD r default])[s.length]? = s[r]?
    rw [List.getElem?_concat_length, List.getD_eq_getElem?_getD,
      List.getElem?_eq_getElem h]
    rfl
  · intro w
    show ((s ++ [s.getD r default]).set r w)[s.length]? = s[r]?
    rw [List.getElem?_set_ne (Nat.ne_of_lt h), List.getElem?_concat_length,
      List.getD_eq_getElem?_getD, List.getElem?_eq_getElem h]
    rfl

/-- C3: for every store, every live state object (a valid reference into the
store) and every history record kind — step (NextNodeEvent), interrupt
(InterruptEvent), end (EndEvent) — the record's `__post_init__` replaces the
live reference with a deep copy: the snapshot reference is distinct from the
live one, holds the live value at record-creation time, and mutating the live
state object afterwards (writing any value through the live reference) leaves
the value read through the record's snapshot reference unchanged. -/
theorem c3_snapshot_isolation {σ ρ : Type} [Inhabited σ] (s : Store σ) (r : Ref)
    (h : r < s.length) (node : NodeInstance σ ρ) (payload : String) (res : ρ)
    (now : Nat) :
    (∃ r', (NextNodeEvent.create s (some r) node now).2.state = some r'
      ∧ r' ≠ r
      ∧ (NextNodeEvent.create s (some r) node now).1.read? r' = s.read? r
      ∧ ∀ w, ((NextNodeEvent.create s (some r) node now).1.write r w).read? r'
          = s.read? r)
    ∧ (∃ r', (InterruptEvent.create s (some r) payload now).2.state = some r'
      ∧ r' ≠ r
      ∧ (InterruptEvent.create s (some r) payload now).1.read? r' = s.read? r
      ∧ ∀ w, ((InterruptEvent.create s (some r) payload now).1.write r w).read? r'
          = s.read? r)
    ∧ (∃ r', (EndEvent.create (ρ := ρ) s (some r) res now).2.state = some r'
      ∧ r' ≠ r
      ∧ (EndEvent.create (ρ := ρ) s (some r) res now).1.read? r' = s.read? r
      ∧ ∀ w, ((EndEvent.create (ρ := ρ) s (some r) res now).1.write r w).read? r'
          = s.read? r) := by
  obtain ⟨r', h₁, h₂, h₃⟩ := deep_copy_state_isolated s r h
  have hne : r' ≠ r := by
    have hlen : List.length s = r' := by
      simpa [_deep_copy_state, deep_copy] using h₁
    intro heq
    have h2 : List.length s = r := hlen.trans heq
    rw [h2] at h
    exact Nat.lt_irrefl r h
  exact ⟨⟨r', h₁, hne, h₂, h₃⟩, ⟨r', h₁, hne, h₂, h₃⟩, ⟨r', h₁, hne, h₂, h₃⟩⟩

/-- C3 witness: a concrete store holding one state cell with value 7; all
three record kinds snapshot it, and overwriting the live cell with 99 leaves
each snapshot reading 7. -/
theorem c3_witness :
    (0 : Ref) < ([7] : Store Nat).length
    ∧ ((∃ r', (NextNodeEvent.create ([7] : Store Nat) (some 0) exNatInst 5).2.state = some r'
        ∧ r' ≠ 0
        ∧ Store.read? (NextNodeEvent.create ([7] : Store Nat) (some 0) exNatInst 5).1 r'
            = Store.read? ([7] : Store Nat) 0
        ∧ ∀ w, Store.read?
              (Store.write (NextNodeEvent.create ([7] : Store Nat) (some 0) exNatInst 5).1 0 w) r'
            = Store.read? ([7] : Store Nat) 0)) := by
  refine ⟨by decide, (c3_snapshot_isolation ([7] : Store Nat) 0 (by decide)
    exNatInst "intr" (0 : Nat) 5).1⟩

-- ===== C7 =====

/-- C7: for every invocation of next() with a registered current node whose
computation returns normally, next returns history extended by exactly one
step record; the record's state snapshot is the deep copy taken from the
store as it was BEFORE the computation ran (the computation receives the
post-snapshot store, witnessed by the shape of the `hrun` hypothesis), the
record references the node value and carries the start timestamp; at
creation its duration is unset, and the returned record is the created
record with only the duration field changed (written exactly once, to the
measured value) — every other field is unchanged. -/
theorem c7_step_record {σ ρ : Type} [Inhabited σ] (g : Graph) (store : Store σ)
    (state : Option Ref) (node : NodeInstance σ ρ) (history : List (HistoryStep σ ρ))
    (now dur : Nat) (store₂ : Store σ) (r : NodeReturn σ ρ)
    (hreg : (g.node_defs.find? (fun p => p.1 == node.id)).isSome = true)
    (hrun : node.runFn state (NextNodeEvent.create store state node now).1
      = (store₂, .returns r)) :
    Graph.next g store state node history now dur =
      (store₂,
       history ++ [HistoryStep.step
         { (NextNodeEvent.create store state node now).2 with duration := some dur }],
       .ok r)
    ∧ (NextNodeEvent.create store state node now).2.duration = none
    ∧ (NextNodeEvent.create store state node now).2.start_ts = now
    ∧ (NextNodeEvent.create store state node now).2.node = node
    ∧ (NextNodeEvent.create store state node now).2.state
        = (_deep_copy_state store state).2 := by
  obtain ⟨v, hv⟩ := Option.isSome_iff_exists.mp hreg
  refine ⟨?_, rfl, rfl, rfl, rfl⟩
  simp [Graph.next, hv, hrun]

/-- C7 witness: next() on the example graph with the registered A-instance
appends exactly the step record ⟨absent snapshot, A-instance, start 0,
duration 1⟩ and returns the B-instance produced by A's computation. -/
theorem c7_witness :
    (exGraph.node_defs.find? (fun p => p.1 == exAInst.id)).isSome = true
    ∧ Graph.next exGraph ([] : Store Unit) none exAInst [] 0 1 =
        ([], [HistoryStep.step ⟨none, exAInst, 0, some 1⟩],
         .ok (.node exBInst)) :=
  ⟨rfl, (c7_step_record exGraph [] none exAInst [] 0 1 []
    (NodeReturn.node exBInst) rfl rfl).1⟩

-- ===== C8 =====

/-- C8: a call next(state, currentNode, history) fails with a
GraphRuntimeError if and only if the current node's identity is not
registered in the graph's node mapping; and when the identity is registered
and the computation returns a value, next returns that value unchanged
(the next node or the End value the computation produced). -/
theorem c8_next_error_iff {σ ρ : Type} [Inhabited σ] (g : Graph) (store : Store σ)
    (state : Option Ref) (node : NodeInstance σ ρ)
    (history : List (HistoryStep σ ρ)) (now dur : Nat) :
    ((∃ m, (Graph.next g store state node history now dur).2.2
        = .error (.graphRuntimeError m)) ↔
      g.node_defs.find? (fun p => p.1 == node.id) = none)
    ∧ (∀ (store₂ : Store σ) (r : NodeReturn σ ρ),
        (g.node_defs.find? (fun p => p.1 == node.id)).isSome = true →
        node.runFn state (NextNodeEvent.create store state node now).1
          = (store₂, .returns r) →
        (Graph.next g store state node history now dur).2.2 = .ok r) := by
  cases hfind : g.node_defs.find? (fun p => p.1 == node.id) with
  | none =>
    constructor
    · exact ⟨fun _ => rfl, fun _ => ⟨unregisteredMsg node.id, by simp [Graph.next, hfind]⟩⟩
    · intro store₂ r hs _
      simp at hs
  | some v =>
    constructor
    · constructor
      · rintro ⟨m, hm⟩
        rcases hr : node.runFn state (NextNodeEvent.create store state node now).1
          with ⟨s₂, cr⟩
        cases cr <;> simp [Graph.next, hfind, hr] at hm
      · intro hcon
        exact Option.noConfusion hcon
    · intro store₂ r _ hrun
      simp [Graph.next, hfind, hrun]

/-- C8 witness: on the example graph, next() with the unregistered
"Q"-instance fails with a GraphRuntimeError, and next() with the registered
A-instance succeeds, returning the B-instance unchanged. -/
theorem c8_witness :
    exGraph.node_defs.find? (fun p => p.1 == exQInst.id) = none
    ∧ (∃ m, (Graph.next exGraph ([] : Store Unit) none exQInst [] 0 1).2.2
        = .error (.graphRuntimeError m))
    ∧ (Graph.next exGraph ([] : Store Unit) none exAInst [] 0 1).2.2
        = .ok (.node exBInst) :=
  ⟨rfl, (c8_next_error_iff exGraph [] none exQInst [] 0 1).1.mpr rfl,
   (c8_next_error_iff exGraph [] none exAInst [] 0 1).2 []
     (NodeReturn.node exBInst) rfl rfl⟩

-- ===== C9 =====

/-- C9: if a registered node's computation raises an exception during
next(), the step record appended before the computation started remains in
the returned history with its duration still unset (None) — step recording
is not rolled back; conversely, when next() fails because the current node
is unregistered, the error is raised before any record is appended, and the
history (and the store) are returned unchanged. -/
theorem c9_failure_behavior {σ ρ : Type} [Inhabited σ] (g : Graph) (store : Store σ)
    (state : Option Ref) (node : NodeInstance σ ρ)
    (history : List (HistoryStep σ ρ)) (now dur : Nat) :
    (∀ (e : String) (store₂ : Store σ),
        (g.node_defs.find? (fun p => p.1 == node.id)).isSome = true →
        node.runFn state (NextNodeEvent.create store state node now).1
          = (store₂, .raises e) →
        Graph.next g store state node history now dur =
          (store₂,
           history ++ [HistoryStep.step (NextNodeEvent.create store state node now).2],
           .error (.exn e))
        ∧ (NextNodeEvent.create store state node now).2.duration = none)
    ∧ (g.node_defs.find? (fun p => p.1 == node.id) = none →
        Graph.next g store state node history now dur =
          (store, history, .error (.graphRuntimeError (unregisteredMsg node.id)))) := by
  constructor
  · intro e store₂ hreg hrun
    obtain ⟨v, hv⟩ := Option.isSome_iff_exists.mp hreg
    exact ⟨by simp [Graph.next, hv, hrun], rfl⟩
  · intro hnone
    simp [Graph.next, hnone]

/-- C9 witness: on the example graph, a registered A-identified instance
that raises "boom" leaves its freshly appended step record (duration None)
in the history, and the unregistered "Q"-instance fails with the
GraphRuntimeError while leaving the empty history empty. -/
theorem c9_witness :
    Graph.next exGraph ([] : Store Unit) none exRaiseInst [] 0 1 =
      ([], [HistoryStep.step ⟨none, exRaiseInst, 0, none⟩], .error (.exn "boom"))
    ∧ Graph.next exGraph ([] : Store Unit) none exQInst [] 0 1 =
      ([], [], .error (.graphRuntimeError (unregisteredMsg "Q"))) :=
  ⟨((c9_failure_behavior exGraph [] none exRaiseInst [] 0 1).1 "boom" [] rfl rfl).1,
   (c9_failure_behavior exGraph [] none exQInst [] 0 1).2 rfl⟩

-- ===== C2 =====

lemma next_shape {σ ρ : Type} [Inhabited σ] (g : Graph) (store : Store σ)
    (state : Option Ref) (node : NodeInstance σ ρ)
    (history : List (HistoryStep σ ρ)) (now dur : Nat) :
    (Graph.next g store state node history now dur
      = (store, history, .error (.graphRuntimeError (unregisteredMsg node.id))))
    ∨ (∃ store₂ ev e, Graph.next g store state node history now dur
      = (store₂, history ++ [HistoryStep.step ev], .error (.exn e)))
    ∨ (∃ store₂ ev r, Graph.next g store state node history now dur
      = (store₂, history ++ [HistoryStep.step ev], .ok r)) := by
  cases hfind : g.node_defs.find? (fun p => p.1 == node.id) with
  | none => exact .inl (by simp [Graph.next, hfind])
  | some v =>
    rcases hr : node.runFn state (NextNodeEvent.create store state node now).1
      with ⟨s₂, cr⟩
    cases cr with
    | raises e =>
      exact .inr (.inl ⟨s₂, (NextNodeEvent.create store state node now).2, e,
        by simp [Graph.next, hfind, hr]⟩)
    | returns r =>
      exact .inr (.inr ⟨s₂,
        { (NextNodeEvent.create store state node now).2 with duration := some dur }, r,
        by simp [Graph.next, hfind, hr]⟩)

lemma runAux_ok_shape {σ ρ : Type} [Inhabited σ] (g : Graph) :
    ∀ (fuel : Nat) (store : Store σ) (state : Option Ref) (node : NodeInstance σ ρ)
      (history : List (HistoryStep σ ρ)) (clock : Nat) (store' : Store σ)
      (v : ρ) (hist : List (HistoryStep σ ρ)),
      g.runAux fuel store state node history clock = (store', .ok (v, hist)) →
      ∃ mid ee, hist = history ++ mid ++ [HistoryStep.end_ ee]
        ∧ (∀ x ∈ mid, ∃ ev, x = HistoryStep.step ev)
        ∧ ee.result = v := by
  intro fuel
  induction fuel with
  | zero =>
    intro store state node history clock store' v hist h
    simp [Graph.runAux] at h
  | succ f ih =>
    intro store state node history clock store' v hist h
    simp only [Graph.runAux] at h
    rcases next_shape g store state node history clock 1
      with hn | ⟨s₂, ev, e, hn⟩ | ⟨s₂, ev, r, hn⟩
    · rw [hn] at h
      simp at h
    · rw [hn] at h
      simp at h
    · rw [hn] at h
      cases r with
      | node n =>
        obtain ⟨mid', ee, hhist, hmid, hres⟩ :=
          ih s₂ state n (history ++ [HistoryStep.step ev]) (clock + 2) store' v hist h
        refine ⟨HistoryStep.step ev :: mid', ee, ?_, ?_, hres⟩
        · rw [hhist]
          simp
        · intro x hx
          rcases List.mem_cons.mp hx with rfl | hx
          · exact ⟨ev, rfl⟩
          · exact hmid x hx
      | end_ v' =>
        simp only [Prod.mk.injEq, Except.ok.injEq] at h
        obtain ⟨hstore, hv, hhist⟩ := h
        refine ⟨[HistoryStep.step ev],
          (EndEvent.create s₂ state v' (clock + 2)).2, ?_, ?_, ?_⟩
        · rw [← hhist]
        · intro x hx
          rcases List.mem_singleton.mp hx with rfl
          exact ⟨ev, rfl⟩
        · rw [← hv]
          rfl
      | other ty =>
        simp at h

/-- C2: for every run of a graph in which an End value is reached (the run
loop returns a result within its fuel bound, i.e. run() terminates), the
returned history is a list of step records — one per node computation
executed — followed by exactly one terminal end record, which is the last
element and carries the End's value; hence the history length equals the
number of executed computations plus one. -/
theorem c2_run_history_shape {σ ρ : Type} [Inhabited σ] (g : Graph) (fuel : Nat)
    (store : Store σ) (state : Option Ref) (start_node : NodeInstance σ ρ)
    (clock : Nat) (store' : Store σ) (v : ρ) (hist : List (HistoryStep σ ρ))
    (h : Graph.run g fuel store state start_node clock = (store', .ok (v, hist))) :
    ∃ steps ee, hist = steps ++ [HistoryStep.end_ ee]
      ∧ (∀ x ∈ steps, ∃ ev, x = HistoryStep.step ev)
      ∧ ee.result = v
      ∧ hist.length = steps.length + 1
      ∧ hist.getLast? = some (HistoryStep.end_ ee) := by
  obtain ⟨mid, ee, hhist, hmid, hres⟩ :=
    runAux_ok_shape g fuel store state start_node [] clock store' v hist h
  refine ⟨mid, ee, by simpa using hhist, hmid, hres, ?_, ?_⟩
  · rw [hhist]
    simp
  · rw [hhist]
    simp [List.getLast?_concat]

/-- C2 witness: on the spec's example graph the run reaches End(42) and the
returned history decomposes into two step records followed by the single
end record carrying 42, of total length 2 + 1. -/
theorem c2_witness :
    ∃ steps ee, exHist = steps ++ [HistoryStep.end_ ee]
      ∧ (∀ x ∈ steps, ∃ ev, x = HistoryStep.step ev)
      ∧ ee.result = 42
      ∧ exHist.length = steps.length + 1
      ∧ exHist.getLast? = some (HistoryStep.end_ ee) :=
  c2_run_history_shape exGraph 5 [] none exAInst 0 [] 42 exHist rfl

-- ===== C10 =====

-- The counter evolution of a call sequence: a successful call resets to 0,
-- a validation failure increments.
def ctr (c : Nat) : List Bool → Nat
  | [] => c
  | b :: rest => ctr (if b then 0 else c + 1) rest

-- The outcome Retriever.run produces given the bound, the counter value
-- before the call, and the call's validation result.
def callOutcome (mr c : Nat) (b : Bool) : RunOutcome :=
  if b then .response else if c + 1 > mr then .raised else .validationErrorMsg

lemma run_fst (r : Retriever) (b : Bool) :
    (r.run b).1 = { r with current_retry := if b then 0 else r.current_retry + 1 } := by
  cases b
  · simp only [Retriever.run, Bool.not_false, if_true]
    split <;> rfl
  · rfl

lemma run_snd (r : Retriever) (b : Bool) :
    (r.run b).2 = callOutcome r.max_retries r.current_retry b := by
  cases b
  · simp only [Retriever.run, callOutcome, Bool.not_false, if_true, if_false]
    split <;> simp_all
  · rfl

lemma runCalls_fst_max : ∀ (l : List Bool) (r : Retriever),
    (runCalls r l).1.max_retries = r.max_retries
  | [], _ => rfl
  | b :: rest, r => by
    show (runCalls (r.run b).1 rest).1.max_retries = r.max_retries
    rw [runCalls_fst_max rest (r.run b).1, run_fst]

lemma runCalls_fst_current : ∀ (l : List Bool) (r : Retriever),
    (runCalls r l).1.current_retry = ctr r.current_retry l
  | [], _ => rfl
  | b :: rest, r => by
    show (runCalls (r.run b).1 rest).1.current_retry
      = ctr (if b then 0 else r.current_retry + 1) rest
    rw [runCalls_fst_current rest (r.run b).1, run_fst]

lemma runCalls_len : ∀ (l : List Bool) (r : Retriever),
    (runCalls r l).2.length = l.length
  | [], _ => rfl
  | b :: rest, r => by
    show ((r.run b).2 :: (runCalls (r.run b).1 rest).2).length = rest.length + 1
    rw [List.length_cons, runCalls_len rest (r.run b).1]

lemma runCalls_out : ∀ (l : List Bool) (r : Retriever) (i : Nat) (b : Bool),
    l[i]? = some b →
    (runCalls r l).2[i]?
      = some (callOutcome r.max_retries (ctr r.current_retry (l.take i)) b)
  | [], _, i, b, h => by simp at h
  | bb :: rest, r, 0, b, h => by
    have hb : bb = b := by simpa using h
    subst hb
    show ((r.run bb).2 :: (runCalls (r.run bb).1 rest).2)[0]? = _
    simpa [ctr] using run_snd r bb
  | bb :: rest, r, i + 1, b, h => by
    have h' : rest[i]? = some b := by simpa using h
    show ((r.run bb).2 :: (runCalls (r.run bb).1 rest).2)[i + 1]? = _
    rw [List.getElem?_cons_succ, runCalls_out rest (r.run bb).1 i b h', run_fst]
    rfl

lemma ctr_append_single : ∀ (xs : List Bool) (c : Nat) (b : Bool),
    ctr c (xs ++ [b]) = if b then 0 else ctr c xs + 1
  | [], c, b => by cases b <;> rfl
  | x :: xs, c, b => by
    show ctr (if x then 0 else c + 1) (xs ++ [b]) = _
    rw [ctr_append_single xs]
    rfl

lemma trailingFalses_append_true (xs : List Bool) :
    trailingFalses (xs ++ [true]) = 0 := by
  simp [trailingFalses]

lemma trailingFalses_append_false (xs : List Bool) :
    trailingFalses (xs ++ [false]) = trailingFalses xs + 1 := by
  simp [trailingFalses]

lemma ctr_zero_eq_trailing (l : List Bool) : ctr 0 l = trailingFalses l := by
  induction l using List.reverseRecOn with
  | nil => rfl
  | append_singleton xs b ihx =>
    cases b
    · rw [ctr_append_single, trailingFalses_append_false, ihx]
      simp
    · rw [ctr_append_single, trailingFalses_append_true]
      simp

/-- C10: over any sequence of calls to Retriever.run (each call's argument
validation either succeeding or failing), starting from a zero retry
counter: (a) the counter after the sequence equals the length of the
trailing run of consecutive validation failures — in particular every
successful validation-and-execution resets it to zero (conjunct on
prefixes ending in a success); and (b) a call raises if and only if it is a
validation failure and the number of consecutive failures up to and
including it (since the last success) exceeds max_retries — so max_retries
bounds consecutive validation failures, not the total number over the
retriever's lifetime. -/
theorem c10_retry_reset (l : List Bool) (r₀ : Retriever)
    (h₀ : r₀.current_retry = 0) :
    (runCalls r₀ l).2.length = l.length
    ∧ (runCalls r₀ l).1.current_retry = trailingFalses l
    ∧ (∀ (i : Nat) (b : Bool), l[i]? = some b → b = true →
        (runCalls r₀ (l.take (i + 1))).1.current_retry = 0)
    ∧ (∀ (i : Nat) (b : Bool), l[i]? = some b →
        ((runCalls r₀ l).2[i]? = some RunOutcome.raised ↔
          (b = false ∧ r₀.max_retries < trailingFalses (l.take (i + 1))))) := by
  refine ⟨runCalls_len l r₀, ?_, ?_, ?_⟩
  · rw [runCalls_fst_current, h₀, ctr_zero_eq_trailing]
  · intro i b hib hb
    subst hb
    rw [runCalls_fst_current, h₀]
    have ht : l.take (i + 1) = l.take i ++ [true] := by
      rw [List.take_succ, hib]
      rfl
    rw [ht, ctr_append_single]
    rfl
  · intro i b hib
    rw [runCalls_out l r₀ i b hib, h₀]
    have ht : l.take (i + 1) = l.take i ++ [b] := by
      rw [List.take_succ, hib]
      rfl
    cases b
    · rw [ht, trailingFalses_append_false, ← ctr_zero_eq_trailing]
      rcases Nat.lt_or_ge r₀.max_retries (ctr 0 (l.take i) + 1) with hgt | hle
      · simp [callOutcome, hgt]
      · simp [callOutcome, Nat.not_lt.mpr hle]
    · simp [callOutcome]

/-- C10 witness: with max_retries = 1 and the call sequence
[fail, succeed, fail, fail]: four outcomes, the counter ends at 2 (the
trailing failures), the fourth call raises (its consecutive-failure count 2
exceeds the bound), while the first call — also a failure, and the second
failure in total — does not raise, because the intervening success reset
the counter. -/
theorem c10_witness :
    (runCalls ⟨1, 0⟩ [false, true, false, false]).2.length = 4
    ∧ (runCalls ⟨1, 0⟩ [false, true, false, false]).1.current_retry = 2
    ∧ (runCalls ⟨1, 0⟩ [false, true, false, false]).2[3]? = some RunOutcome.raised
    ∧ (runCalls ⟨1, 0⟩ [false, true, false, false]).2[0]?
        ≠ some RunOutcome.raised := by
  have h := c10_retry_reset [false, true, false, false] ⟨1, 0⟩ rfl
  refine ⟨h.1, h.2.1.trans (by decide), (h.2.2.2 3 false rfl).mpr ⟨rfl, by decide⟩,
    fun hr => absurd ((h.2.2.2 0 false rfl).mp hr).2 (by decide)⟩

-- ===== C4 =====

/-- C4, counterexample: node type W declares the wildcard case (its
returns_base_node flag is set) together with the explicit successor
identity "Z", which is not registered; the claim says the whole node is
exempt from dangling-successor validation, so building [W, T] should
succeed — but construction fails with the dangling-reference setup error
for "Z": the wildcard case does not exempt the node's explicitly declared
successor identities from validation. -/
theorem c4_counterexample :
    exW.get_node_def.returns_base_node = true
    ∧ Graph.build none [exW, exT]
        = .error "`Z` is referenced by `W` but not included in the graph." :=
  ⟨rfl, rfl⟩

lemma mermaidBody_mem (g : Graph) (start_ids : List String) (el nt : Bool) :
    ∀ (l : List (String × NodeDef)) (p : String × NodeDef) (x : String),
      p ∈ l → x ∈ nodeLines g start_ids el nt p → x ∈ mermaidBody g start_ids el nt l
  | [], p, _, hp, _ => absurd hp (List.not_mem_nil p)
  | a :: rest, p, x, hp, hx => by
    show x ∈ nodeLines g start_ids el nt a ++ mermaidBody g start_ids el nt rest
    rcases List.mem_cons.mp hp with rfl | hp'
    · exact List.mem_append_left _ hx
    · exact List.mem_append_right _ (mermaidBody_mem g start_ids el nt rest p x hp' hx)

lemma collectAll_flag_invariant (known : List String) (f : String × NodeDef → Bool) :
    ∀ (l : List (String × NodeDef)) (acc : List (String × List String)),
      collectAll known acc
          (l.map (fun p => (p.1, { p.2 with returns_base_node := f p })))
        = collectAll known acc l
  | [], _ => rfl
  | p :: rest, acc => by
    show collectAll known
        (collectNode known p.1 acc p.2.next_node_edges)
        (rest.map (fun p => (p.1, { p.2 with returns_base_node := f p })))
      = collectAll known (collectNode known p.1 acc p.2.next_node_edges) rest
    exact collectAll_flag_invariant known f rest _

/-- C4, amended claim: the wildcard case itself contributes nothing to
dangling-successor validation (construction-time edge validation reads only
the explicitly declared successor identities and ignores the wildcard flag
entirely — flipping the flag of every node never changes the validation
outcome, so a node declaring only the wildcard, and possibly the terminal
case, always passes), but a wildcard node's explicitly declared successor
identities are still validated; and the diagram renderer draws an edge from
every node whose declared outcome set includes the wildcard case to every
node registered in the graph. -/
theorem c4_wildcard :
    (∀ (defs : List (String × NodeDef)) (f : String × NodeDef → Bool),
      _validate_edges (defs.map (fun p => (p.1, { p.2 with returns_base_node := f p })))
        = _validate_edges defs)
    ∧ (∀ (g : Graph) (p q : String × NodeDef) (start_ids : List String)
        (edge_labels notes : Bool), p ∈ g.node_defs → q ∈ g.node_defs →
        p.2.returns_base_node = true →
        mkEdgeLine p.1 q.1 ∈ mermaidLines g start_ids edge_labels notes) := by
  constructor
  · intro defs f
    have hids : ids (defs.map (fun p => (p.1, { p.2 with returns_base_node := f p })))
        = ids defs := by
      simp [ids]
    simp only [_validate_edges, collectBadEdges, hids,
      collectAll_flag_invariant (ids defs) f defs]
  · intro g p q start_ids edge_labels notes hp hq hrb
    have hB : mkEdgeLine p.1 q.1 ∈ g.node_defs.map (fun r => mkEdgeLine p.1 r.1) :=
      List.mem_map_of_mem _ hq
    have hNL : mkEdgeLine p.1 q.1 ∈ nodeLines g start_ids edge_labels notes p := by
      simp only [nodeLines, hrb, if_true]
      exact List.mem_append_left _ (List.mem_append_left _ (List.mem_append_right _ hB))
    exact List.mem_cons_of_mem _
      (mermaidBody_mem g start_ids edge_labels notes g.node_defs p _ hp hNL)

/-- C4 witness: in the graph holding wildcard node W and terminal node T,
the renderer's output contains the edge line from W to T (and W's wildcard
flag is set). -/
theorem c4_witness :
    ("W", exW.get_node_def) ∈ exWGraph.node_defs
    ∧ exW.get_node_def.returns_base_node = true
    ∧ mkEdgeLine "W" "T" ∈ mermaidLines exWGraph [] true true := by
  refine ⟨List.mem_cons_self _ _, rfl, ?_⟩
  exact c4_wildcard.2 exWGraph ("W", exW.get_node_def) ("T", exT.get_node_def)
    [] true true (List.mem_cons_self _ _)
    (List.mem_cons_of_mem _ (List.mem_cons_self _ _)) rfl

-- ===== C5 =====

def badEdgeKeys (bad : List (String × List String)) : List String :=
  bad.map (fun p => p.1)

-- The grouped dictionary records the pair: the missing identity maps to a
-- reference list containing the given formatted referencer.
def RecordsRef (bad : List (String × List String)) (e ref : String) : Prop :=
  ∃ v, (e, v) ∈ bad ∧ ref ∈ v

-- A dangling successor reference: some registered node declares `k` as an
-- explicit successor, and `k` is not among the registered identities.
def DanglingTarget (defs : List (String × NodeDef)) (k : String) : Prop :=
  (∃ p ∈ defs, ∃ lbl, (k, lbl) ∈ p.2.next_node_edges)
  ∧ (ids defs).contains k = false

lemma addBadEdge_keys (acc : List (String × List String)) (e ref : String) :
    badEdgeKeys (addBadEdge acc e ref)
      = if acc.any (fun p => p.1 == e) then badEdgeKeys acc
        else badEdgeKeys acc ++ [e] := by
  unfold addBadEdge badEdgeKeys
  split
  · rw [List.map_map]
    apply List.map_congr_left
    intro p _
    by_cases hp : p.1 = e <;> simp [hp]
  · simp

lemma addBadEdge_preserves (acc : List (String × List String)) (e ref k r : String)
    (h : RecordsRef acc k r) : RecordsRef (addBadEdge acc e ref) k r := by
  obtain ⟨v, hv, hr⟩ := h
  unfold addBadEdge
  split
  · by_cases hke : (k == e) = true
    · refine ⟨v ++ [ref], ?_, List.mem_append_left _ hr⟩
      have hm := List.mem_map_of_mem
        (fun p => if p.1 == e then (p.1, p.2 ++ [ref]) else p) hv
      simpa [hke] using hm
    · refine ⟨v, ?_, hr⟩
      have hm := List.mem_map_of_mem
        (fun p => if p.1 == e then (p.1, p.2 ++ [ref]) else p) hv
      simpa [hke] using hm
  · exact ⟨v, List.mem_append_left _ hv, hr⟩

lemma addBadEdge_records (acc : List (String × List String)) (e ref : String) :
    RecordsRef (addBadEdge acc e ref) e ref := by
  by_cases h : acc.any (fun p => p.1 == e) = true
  · simp only [addBadEdge, if_pos h]
    obtain ⟨p, hp, hpe⟩ := List.any_eq_true.mp h
    refine ⟨p.2 ++ [ref], ?_, List.mem_append_right _ (List.mem_singleton.mpr rfl)⟩
    have hm := List.mem_map_of_mem
      (fun q => if q.1 == e then (q.1, q.2 ++ [ref]) else q) hp
    simpa [hpe, eq_of_beq hpe] using hm
  · simp only [addBadEdge, if_neg h]
    exact ⟨[ref], List.mem_append_right _ (List.mem_singleton.mpr rfl),
      List.mem_singleton.mpr rfl⟩

lemma addBadEdge_keys_mem (acc : List (String × List String)) (e ref k : String) :
    k ∈ badEdgeKeys (addBadEdge acc e ref) ↔ (k ∈ badEdgeKeys acc ∨ k = e) := by
  by_cases h : acc.any (fun p => p.1 == e) = true
  · rw [addBadEdge_keys, if_pos h]
    obtain ⟨p, hp, hpe⟩ := List.any_eq_true.mp h
    have he : e ∈ badEdgeKeys acc := by
      have hm : p.1 ∈ badEdgeKeys acc := List.mem_map_of_mem _ hp
      rwa [eq_of_beq hpe] at hm
    constructor
    · exact .inl
    · rintro (hk | rfl)
      · exact hk
      · exact he
  · rw [addBadEdge_keys, if_neg h]
    simp [List.mem_append]

lemma addBadEdge_nodup (acc : List (String × List String)) (e ref : String)
    (h : (badEdgeKeys acc).Nodup) : (badEdgeKeys (addBadEdge acc e ref)).Nodup := by
  by_cases hc : acc.any (fun p => p.1 == e) = true
  · rwa [addBadEdge_keys, if_pos hc]
  · rw [addBadEdge_keys, if_neg hc]
    have he : e ∉ badEdgeKeys acc := by
      intro hmem
      obtain ⟨p, hp, hpe⟩ := List.mem_map.mp hmem
      exact hc (List.any_eq_true.mpr ⟨p, hp, beq_iff_eq.mpr hpe⟩)
    simp [List.nodup_append, h, he]

lemma collectNode_preserves (known : List String) (nid k r : String)
    (edges : List (String × Edge)) :
    ∀ acc, RecordsRef acc k r → RecordsRef (collectNode known nid acc edges) k r := by
  induction edges with
  | nil =>
    intro acc h
    exact h
  | cons e rest ih =>
    intro acc h
    obtain ⟨e₁, l₁⟩ := e
    simp only [collectNode]
    by_cases hc : known.contains e₁ = true
    · rw [if_pos hc]
      exact ih acc h
    · rw [if_neg hc]
      exact ih _ (addBadEdge_preserves acc e₁ _ k r h)

lemma collectNode_records (known : List String) (nid e : String) (lbl : Edge)
    (edges : List (String × Edge)) (hk : known.contains e = false) :
    ∀ acc, (e, lbl) ∈ edges →
      RecordsRef (collectNode known nid acc edges) e ("`" ++ nid ++ "`") := by
  induction edges with
  | nil =>
    intro acc he
    exact absurd he (List.not_mem_nil _)
  | cons e₀ rest ih =>
    intro acc he
    obtain ⟨e₁, l₁⟩ := e₀
    simp only [collectNode]
    rcases List.mem_cons.mp he with heq | he'
    · cases heq
      rw [if_neg (by rw [hk]; exact Bool.false_ne_true)]
      exact collectNode_preserves known nid e _ rest _ (addBadEdge_records acc e _)
    · by_cases hc : known.contains e₁ = true
      · rw [if_pos hc]
        exact ih acc he'
      · rw [if_neg hc]
        exact ih _ he'

lemma collectNode_keys_mem (known : List String) (nid k : String)
    (edges : List (String × Edge)) :
    ∀ acc, k ∈ badEdgeKeys (collectNode known nid acc edges) →
      k ∈ badEdgeKeys acc
      ∨ (∃ lbl, (k, lbl) ∈ edges ∧ known.contains k = false) := by
  induction edges with
  | nil =>
    intro acc h
    exact .inl h
  | cons e rest ih =>
    intro acc h
    obtain ⟨e₁, l₁⟩ := e
    simp only [collectNode] at h
    by_cases hc : known.contains e₁ = true
    · rw [if_pos hc] at h
      rcases ih acc h with h' | ⟨lbl, hmem, hkn⟩
      · exact .inl h'
      · exact .inr ⟨lbl, List.mem_cons_of_mem _ hmem, hkn⟩
    · rw [if_neg hc] at h
      rcases ih _ h with h' | ⟨lbl, hmem, hkn⟩
      · rcases (addBadEdge_keys_mem acc e₁ _ k).mp h' with h'' | rfl
        · exact .inl h''
        · exact .inr ⟨l₁, List.mem_cons_self _ _, by simpa using hc⟩
      · exact .inr ⟨lbl, List.mem_cons_of_mem _ hmem, hkn⟩

lemma collectNode_nodup (known : List String) (nid : String)
    (edges : List (String × Edge)) :
    ∀ acc, (badEdgeKeys acc).Nodup →
      (badEdgeKeys (collectNode known nid acc edges)).Nodup := by
  induction edges with
  | nil =>
    intro acc h
    exact h
  | cons e rest ih =>
    intro acc h
    obtain ⟨e₁, l₁⟩ := e
    simp only [collectNode]
    by_cases hc : known.contains e₁ = true
    · rw [if_pos hc]
      exact ih acc h
    · rw [if_neg hc]
      exact ih _ (addBadEdge_nodup acc e₁ _ h)

lemma collectAll_preserves (known : List String) (k r : String)
    (l : List (String × NodeDef)) :
    ∀ acc, RecordsRef acc k r → RecordsRef (collectAll known acc l) k r := by
  induction l with
  | nil =>
    intro acc h
    exact h
  | cons p rest ih =>
    intro acc h
    simp only [collectAll]
    exact ih _ (collectNode_preserves known p.1 k r p.2.next_node_edges acc h)

lemma collectAll_records (known : List String) (p : String × NodeDef)
    (q : String × Edge) (hq : q ∈ p.2.next_node_edges)
    (hk : known.contains q.1 = false) (l : List (String × NodeDef)) :
    ∀ acc, p ∈ l →
      RecordsRef (collectAll known acc l) q.1 ("`" ++ p.1 ++ "`") := by
  induction l with
  | nil =>
    intro acc hp
    exact absurd hp (List.not_mem_nil _)
  | cons a rest ih =>
    intro acc hp
    simp only [collectAll]
    rcases List.mem_cons.mp hp with rfl | hp'
    · exact collectAll_preserves known q.1 _ rest _
        (collectNode_records known p.1 q.1 q.2 p.2.next_node_edges hk acc hq)
    · exact ih _ hp'

lemma collectAll_keys_mem (known : List String) (k : String)
    (l : List (String × NodeDef)) :
    ∀ acc, k ∈ badEdgeKeys (collectAll known acc l) →
      k ∈ badEdgeKeys acc
      ∨ ∃ p ∈ l, ∃ lbl, (k, lbl) ∈ p.2.next_node_edges ∧ known.contains k = false := by
  induction l with
  | nil =>
    intro acc h
    exact .inl h
  | cons a rest ih =>
    intro acc h
    simp only [collectAll] at h
    rcases ih _ h with h' | ⟨p, hp, lbl, hmem, hkn⟩
    · rcases collectNode_keys_mem known a.1 k a.2.next_node_edges acc h'
        with h'' | ⟨lbl, hmem, hkn⟩
      · exact .inl h''
      · exact .inr ⟨a, List.mem_cons_self _ _, lbl, hmem, hkn⟩
    · exact .inr ⟨p, List.mem_cons_of_mem _ hp, lbl, hmem, hkn⟩

lemma collectAll_nodup (known : List String) (l : List (String × NodeDef)) :
    ∀ acc, (badEdgeKeys acc).Nodup →
      (badEdgeKeys (collectAll known acc l)).Nodup := by
  induction l with
  | nil =>
    intro acc h
    exact h
  | cons a rest ih =>
    intro acc h
    simp only [collectAll]
    exact ih _ (collectNode_nodup known a.1 a.2.next_node_edges acc h)

lemma recordsRef_key_mem {bad : List (String × List String)} {k r : String}
    (h : RecordsRef bad k r) : k ∈ badEdgeKeys bad := by
  obtain ⟨v, hv, _⟩ := h
  exact List.mem_map_of_mem _ hv

lemma occursIn_badEdgeEntry_key (p : String × List String) :
    occursIn p.1 (badEdgeEntry p) :=
  occursIn_right _ (occursIn_right _ (occursIn_left _ (occursIn_refl p.1)))

lemma occursIn_badEdgeEntry_ref (p : String × List String) (nid : String)
    (h : ("`" ++ nid ++ "`") ∈ p.2) : occursIn nid (badEdgeEntry p) := by
  have h1 : occursIn nid ("`" ++ nid ++ "`") :=
    occursIn_right _ (occursIn_left _ (occursIn_refl nid))
  have h2 : occursIn ("`" ++ nid ++ "`") (comma_and p.2) := occursIn_comma_and p.2 _ h
  exact occursIn_left _ (occursIn_trans h1 h2)

/-- C5: graph-construction edge validation collects every unresolved
explicitly declared successor reference across all registered node defs
before raising: validation succeeds exactly when there is no dangling
reference; the grouped dictionary's keys are exactly the distinct missing
identities (without duplicates); for every node that references a missing
identity, the raised setup error's message contains both the missing
identity and the referencing node's identity; and the message is shaped
singular (one offending relationship) when exactly one identity is missing,
and as a grouped multi-line list when several are. -/
theorem c5_dangling_collection (defs : List (String × NodeDef)) :
    (_validate_edges defs = .ok () ↔ collectBadEdges defs = [])
    ∧ (collectBadEdges defs = [] ↔ ∀ k, ¬ DanglingTarget defs k)
    ∧ (badEdgeKeys (collectBadEdges defs)).Nodup
    ∧ (∀ k, k ∈ badEdgeKeys (collectBadEdges defs) ↔ DanglingTarget defs k)
    ∧ (∀ (p : String × NodeDef) (q : String × Edge), p ∈ defs →
        q ∈ p.2.next_node_edges → (ids defs).contains q.1 = false →
        ∃ msg, _validate_edges defs = .error msg
          ∧ occursIn q.1 msg ∧ occursIn p.1 msg)
    ∧ ((collectBadEdges defs).length = 1 →
        ∃ p, _validate_edges defs
          = .error (badEdgeEntry p ++ " but not included in the graph."))
    ∧ (2 ≤ (collectBadEdges defs).length →
        ∃ body, _validate_edges defs
          = .error ("Nodes are referenced in the graph but not included in the graph:\n"
              ++ body)) := by
  have hkeys : ∀ k, k ∈ badEdgeKeys (collectBadEdges defs) ↔ DanglingTarget defs k := by
    intro k
    constructor
    · intro h
      rcases collectAll_keys_mem (ids defs) k defs [] h with h' | ⟨p, hp, lbl, hmem, hkn⟩
      · exact absurd h' (List.not_mem_nil k)
      · exact ⟨⟨p, hp, lbl, hmem⟩, hkn⟩
    · rintro ⟨⟨p, hp, lbl, hmem⟩, hkn⟩
      exact recordsRef_key_mem (collectAll_records (ids defs) p (k, lbl) hmem hkn defs [] hp)
  have hnil : collectBadEdges defs = [] ↔ ∀ k, ¬ DanglingTarget defs k := by
    constructor
    · intro h k hd
      have hm := (hkeys k).mpr hd
      rw [h] at hm
      exact absurd hm (List.not_mem_nil k)
    · intro h
      rcases hbad : collectBadEdges defs with _ | ⟨b, rest⟩
      · rfl
      · exfalso
        have hb : b.1 ∈ badEdgeKeys (collectBadEdges defs) := by
          rw [hbad]
          exact List.mem_map_of_mem _ (List.mem_cons_self _ _)
        exact h b.1 ((hkeys b.1).mp hb)
  have hok : _validate_edges defs = .ok () ↔ collectBadEdges defs = [] := by
    rcases hbad : collectBadEdges defs with _ | ⟨b, rest⟩
    · simp [_validate_edges, hbad]
    · rcases rest with _ | ⟨b₂, rest₂⟩
      · simp [_validate_edges, hbad]
      · simp [_validate_edges, hbad]
  have hmsg : ∀ (p : String × NodeDef) (q : String × Edge), p ∈ defs →
      q ∈ p.2.next_node_edges → (ids defs).contains q.1 = false →
      ∃ msg, _validate_edges defs = .error msg
        ∧ occursIn q.1 msg ∧ occursIn p.1 msg := by
    intro p q hp hq hkn
    obtain ⟨v, hv₀, hr⟩ := collectAll_records (ids defs) p q hq hkn defs [] hp
    have hv : (q.1, v) ∈ collectBadEdges defs := hv₀
    rcases hbad : collectBadEdges defs with _ | ⟨b, rest⟩
    · rw [hbad] at hv
      exact absurd hv (List.not_mem_nil _)
    · rcases rest with _ | ⟨b₂, rest₂⟩
      · rw [hbad] at hv
        have hb : b = (q.1, v) := (List.mem_singleton.mp hv).symm
        refine ⟨badEdgeEntry b ++ " but not included in the graph.", ?_, ?_, ?_⟩
        · simp [_validate_edges, hbad]
        · rw [hb]
          exact occursIn_right _ (occursIn_badEdgeEntry_key (q.1, v))
        · rw [hb]
          exact occursIn_right _ (occursIn_badEdgeEntry_ref (q.1, v) p.1 hr)
      · rw [hbad] at hv
        have hentry : (" " ++ badEdgeEntry (q.1, v))
            ∈ (b :: b₂ :: rest₂).map (fun r => " " ++ badEdgeEntry r) :=
          List.mem_map_of_mem _ hv
        refine ⟨"Nodes are referenced in the graph but not included in the graph:\n"
            ++ joinLines ((b :: b₂ :: rest₂).map (fun r => " " ++ badEdgeEntry r)),
            ?_, ?_, ?_⟩
        · simp [_validate_edges, hbad]
        · exact occursIn_left _ (occursIn_trans
            (occursIn_left " " (occursIn_badEdgeEntry_key (q.1, v)))
            (occursIn_joinLines _ _ hentry))
        · exact occursIn_left _ (occursIn_trans
            (occursIn_left " " (occursIn_badEdgeEntry_ref (q.1, v) p.1 hr))
            (occursIn_joinLines _ _ hentry))
  have hsingle : (collectBadEdges defs).length = 1 →
      ∃ p, _validate_edges defs
        = .error (badEdgeEntry p ++ " but not included in the graph.") := by
    intro hlen
    rcases hbad : collectBadEdges defs with _ | ⟨b, rest⟩
    · rw [hbad] at hlen
      simp at hlen
    · rcases rest with _ | ⟨b₂, rest₂⟩
      · exact ⟨b, by simp [_validate_edges, hbad]⟩
      · rw [hbad] at hlen
        simp at hlen
  have hmulti : 2 ≤ (collectBadEdges defs).length →
      ∃ body, _validate_edges defs
        = .error ("Nodes are referenced in the graph but not included in the graph:\n"
            ++ body) := by
    intro hlen
    rcases hbad : collectBadEdges defs with _ | ⟨b, rest⟩
    · rw [hbad] at hlen
      simp at hlen
    · rcases rest with _ | ⟨b₂, rest₂⟩
      · rw [hbad] at hlen
        simp at hlen
      · exact ⟨joinLines ((b :: b₂ :: rest₂).map (fun r => " " ++ badEdgeEntry r)),
          by simp [_validate_edges, hbad]⟩
  exact ⟨hok, hnil, collectAll_nodup (ids defs) defs [] List.nodup_nil, hkeys,
    hmsg, hsingle, hmulti⟩

/-- C5 witness: in the registry holding wildcard node W (which explicitly
references the unregistered identity "Z") and terminal node T, validation
raises a setup error whose message mentions both "Z" and "W". -/
theorem c5_witness :
    ("W", exW.get_node_def) ∈ exWGraph.node_defs
    ∧ ("Z", (⟨none⟩ : Edge)) ∈ exW.get_node_def.next_node_edges
    ∧ (ids exWGraph.node_defs).contains "Z" = false
    ∧ (∃ msg, _validate_edges exWGraph.node_defs = .error msg
        ∧ occursIn "Z" msg ∧ occursIn "W" msg) := by
  have hq : ("Z", (⟨none⟩ : Edge)) ∈ exW.get_node_def.next_node_edges := by
    show ("Z", (⟨none⟩ : Edge)) ∈ [("Z", (⟨none⟩ : Edge))]
    exact List.mem_singleton.mpr rfl
  refine ⟨List.mem_cons_self _ _, hq, rfl, ?_⟩
  exact (c5_dangling_collection exWGraph.node_defs).2.2.2.2.1
    ("W", exW.get_node_def) ("Z", ⟨none⟩) (List.mem_cons_self _ _) hq rfl

-- ===== C6 =====

lemma occursIn_dupMsg_a (nid a b : String) : occursIn a (dupMsg nid a b) :=
  occursIn_right _ (occursIn_right _ (occursIn_left _ (occursIn_refl a)))

lemma occursIn_dupMsg_b (nid a b : String) : occursIn b (dupMsg nid a b) :=
  occursIn_left _ (occursIn_refl b)

lemma registerAll_dup (ns : List NodeType) :
    ∀ (acc : List (String × NodeDef)) (pre : List NodeType),
      (∀ p ∈ acc, ∃ x ∈ pre, p.2.node = x ∧ p.1 = x.get_id) →
      ((∃ nt ∈ ns, ∃ p ∈ acc, p.1 = nt.get_id)
        ∨ (∃ i j, ∃ (hij : i < j) (hj : j < ns.length),
            (ns.get ⟨i, Nat.lt_trans hij hj⟩).get_id = (ns.get ⟨j, hj⟩).get_id)) →
      ∃ a b msg, registerAll acc ns = .error msg
        ∧ msg = dupMsg b.get_id a.name b.name
        ∧ a.get_id = b.get_id
        ∧ ((a ∈ pre ∧ b ∈ ns) ∨ ∃ l₁ l₂ l₃, ns = l₁ ++ a :: (l₂ ++ b :: l₃)) := by
  induction ns with
  | nil =>
    intro acc pre _ hcol
    rcases hcol with ⟨nt, hnt, _⟩ | ⟨_, j, _, hj, _⟩
    · exact absurd hnt (List.not_mem_nil nt)
    · exact absurd hj (Nat.not_lt_zero j)
  | cons nt rest ih =>
    intro acc pre hinv hcol
    cases hfind : acc.find? (fun p => p.1 == nt.get_id) with
    | some ex =>
      have hex : ex ∈ acc := List.mem_of_find?_eq_some hfind
      have hexid : ex.1 = nt.get_id := eq_of_beq (List.find?_eq_some.mp hfind).1
      obtain ⟨x, hxpre, hxnode, hxkey⟩ := hinv ex hex
      refine ⟨x, nt, dupMsg nt.get_id ex.2.node.name nt.name, ?_, ?_, ?_,
        .inl ⟨hxpre, List.mem_cons_self _ _⟩⟩
      · simp only [registerAll, _register_node, hfind]
      · rw [hxnode]
      · rw [← hxkey]
        exact hexid
    | none =>
      have hstep : registerAll acc (nt :: rest)
          = registerAll (acc ++ [(nt.get_id, nt.get_node_def)]) rest := by
        simp only [registerAll, _register_node, hfind]
      have hnotin : ∀ p ∈ acc, p.1 ≠ nt.get_id := by
        intro p hp heq
        exact List.find?_eq_none.mp hfind p hp (beq_iff_eq.mpr heq)
      have hinv' : ∀ p ∈ acc ++ [(nt.get_id, nt.get_node_def)],
          ∃ x ∈ pre ++ [nt], p.2.node = x ∧ p.1 = x.get_id := by
        intro p hp
        rcases List.mem_append.mp hp with hp' | hp'
        · obtain ⟨x, hx1, hx2, hx3⟩ := hinv p hp'
          exact ⟨x, List.mem_append_left _ hx1, hx2, hx3⟩
        · rcases List.mem_singleton.mp hp' with rfl
          exact ⟨nt, List.mem_append_right _ (List.mem_singleton.mpr rfl), rfl, rfl⟩
      have hcol' : (∃ m ∈ rest, ∃ p ∈ acc ++ [(nt.get_id, nt.get_node_def)],
            p.1 = m.get_id)
          ∨ (∃ i j, ∃ (hij : i < j) (hj : j < rest.length),
              (rest.get ⟨i, Nat.lt_trans hij hj⟩).get_id
                = (rest.get ⟨j, hj⟩).get_id) := by
        rcases hcol with ⟨m, hm, p, hp, hpid⟩ | ⟨i, j, hij, hj, hid⟩
        · rcases List.mem_cons.mp hm with rfl | hm'
          · exact absurd hpid (hnotin p hp)
          · exact .inl ⟨m, hm', p, List.mem_append_left _ hp, hpid⟩
        · cases i with
          | zero =>
            cases j with
            | zero => exact absurd hij (Nat.lt_irrefl 0)
            | succ j' =>
              have hj' : j' < rest.length := Nat.lt_of_succ_lt_succ hj
              refine .inl ⟨rest.get ⟨j', hj'⟩, List.get_mem rest j' hj',
                (nt.get_id, nt.get_node_def),
                List.mem_append_right _ (List.mem_singleton.mpr rfl), ?_⟩
              simpa using hid
          | succ i' =>
            cases j with
            | zero => exact absurd hij (Nat.not_lt_zero _)
            | succ j' =>
              have hij' : i' < j' := Nat.lt_of_succ_lt_succ hij
              have hj' : j' < rest.length := Nat.lt_of_succ_lt_succ hj
              refine .inr ⟨i', j', hij', hj', ?_⟩
              simpa using hid
      obtain ⟨a, b, msg, hrun, hmsg, hab, hpos⟩ := ih _ _ hinv' hcol'
      refine ⟨a, b, msg, by rw [hstep]; exact hrun, hmsg, hab, ?_⟩
      rcases hpos with ⟨hapre, hbrest⟩ | ⟨l₁, l₂, l₃, hdec⟩
      · rcases List.mem_append.mp hapre with h' | h'
        · exact .inl ⟨h', List.mem_cons_of_mem _ hbrest⟩
        · rcases List.mem_singleton.mp h' with rfl
          obtain ⟨s, t, hst⟩ := List.append_of_mem hbrest
          exact .inr ⟨[], s, t, by rw [hst]; simp⟩
      · exact .inr ⟨nt :: l₁, l₂, l₃, by rw [hdec]; simp⟩

/-- C6: for every list of node types containing two node types at distinct
positions that derive the same identity, graph construction fails with a
setup error, and the error message names BOTH members of the conflicting
pair the registration loop trips over: the list decomposes as
l₁ ++ a :: (l₂ ++ b :: l₃) — so a and b occupy two distinct positions —
their derived identities coincide, and the raised message is exactly the
duplicate-identity message built from the earlier-registered node type a's
name and the re-registering node type b's name, hence both conflicting
node types' names occur in it. -/
theorem c6_duplicate_identity (gname : Option String) (ns : List NodeType)
    (i j : Nat) (hij : i < j) (hj : j < ns.length)
    (hid : (ns.get ⟨i, Nat.lt_trans hij hj⟩).get_id = (ns.get ⟨j, hj⟩).get_id) :
    ∃ a b msg l₁ l₂ l₃, ns = l₁ ++ a :: (l₂ ++ b :: l₃)
      ∧ a.get_id = b.get_id
      ∧ Graph.build gname ns = .error msg
      ∧ msg = dupMsg b.get_id a.name b.name
      ∧ occursIn a.name msg ∧ occursIn b.name msg := by
  obtain ⟨a, b, msg, hrun, hmsg, hab, hpos⟩ :=
    registerAll_dup ns [] []
      (by intro p hp; exact absurd hp (List.not_mem_nil p))
      (.inr ⟨i, j, hij, hj, hid⟩)
  rcases hpos with ⟨hapre, _⟩ | ⟨l₁, l₂, l₃, hdec⟩
  · exact absurd hapre (List.not_mem_nil a)
  · refine ⟨a, b, msg, l₁, l₂, l₃, hdec, hab, ?_, hmsg, ?_, ?_⟩
    · simp only [Graph.build, hrun]
    · rw [hmsg]
      exact occursIn_dupMsg_a _ _ _
    · rw [hmsg]
      exact occursIn_dupMsg_b _ _ _

-- Two distinct node classes both overriding node_id to "N".
def dupX : NodeType := ⟨"X1", some "N", [.endAnn none], none⟩

def dupY : NodeType := ⟨"X2", some "N", [.endAnn none], none⟩

/-- C6 witness: the distinct classes X1 and X2 both derive identity "N";
building the graph from them fails with exactly the message naming both
class names ("Node ID `N` is not unique — found on X1 and X2"), and the
theorem instantiates at the two distinct positions. -/
theorem c6_witness :
    Graph.build none [dupX, dupY] = .error (dupMsg "N" "X1" "X2")
    ∧ (∃ a b msg l₁ l₂ l₃,
        ([dupX, dupY] : List NodeType) = l₁ ++ a :: (l₂ ++ b :: l₃)
        ∧ a.get_id = b.get_id
        ∧ Graph.build none [dupX, dupY] = .error msg
        ∧ msg = dupMsg b.get_id a.name b.name
        ∧ occursIn a.name msg ∧ occursIn b.name msg) :=
  ⟨rfl, c6_duplicate_identity none [dupX, dupY] 0 1 (by decide) (by decide) rfl⟩

end PG
